import Mathlib

/-!
Verification of the grabit web-clipper (src/grabit.py) against its
natural-language specification.

The Python source is shallowly embedded: pure functions become Lean
functions, exceptions become `Except`, the filesystem and stdout become an
explicit `World` state, and external collaborators (HTTP transport, the
readability boundary, `json.loads`, `yaml.dump`, `unidecode`, `urlparse`,
the current date) become function parameters.  Machine-level details of
CPython (exact exception message wording for type errors, timsort's
comparison schedule) are modelled up to observational equivalence for the
inputs the claims quantify over; each such point is noted in a comment at
the definition it concerns.

The file is organised as definitions first (following the layout of the
source), then the theorems for the claims together with their helper
lemmas, witnesses and counterexamples.
-/

namespace Grabit

/-- The `OutputFormat` enum of grabit.py, with its `value` strings. -/
inductive OutputFormat where
  | MD
  | STDOUT_MD
  | READABLE_HTML
  | RAW_HTML
deriving DecidableEq, Repr

/-- The `value` attribute of each enum member (also its `__str__`). -/
def OutputFormat.value : OutputFormat → String
  | .MD => "md"
  | .STDOUT_MD => "stdout.md"
  | .READABLE_HTML => "html"
  | .RAW_HTML => "raw.html"

/-- All enum members, used to enumerate the keys of an artifact map. -/
def allOutputFormats : List OutputFormat :=
  [.MD, .STDOUT_MD, .READABLE_HTML, .RAW_HTML]

/-- The Python membership test `"stdout" in fmt.value`, as a substring test
on the character lists of the two strings. -/
def stdoutInValue (fmt : OutputFormat) : Bool :=
  decide ("stdout".data <:+: fmt.value.data)

/-- `RenderFlags` dataclass. -/
structure RenderFlags where
  include_source : Bool
  include_title : Bool
  yaml_frontmatter : Bool
deriving DecidableEq, Repr

/-- `OutputFlags` dataclass. -/
structure OutputFlags where
  output_formats : List OutputFormat
  create_domain_subdir : Bool
  overwrite : Bool
deriving DecidableEq, Repr

/-- `should_output_raw_html`. -/
def should_output_raw_html (output_formats : List OutputFormat) : Bool :=
  output_formats.contains .RAW_HTML

/-- `should_output_readable_html`. -/
def should_output_readable_html (output_formats : List OutputFormat) : Bool :=
  output_formats.contains .READABLE_HTML

/-- `should_output_markdown`. -/
def should_output_markdown (output_formats : List OutputFormat) : Bool :=
  output_formats.contains .MD || output_formats.contains .STDOUT_MD

/-- The function `should_output_file`: `any("stdout" not in fmt.value for fmt
in output_formats)`.  The `output` function calls it once on the artifact
dict (Python then iterates the dict's keys) and once on a one-element list;
both call sites are modelled by passing the corresponding key list. -/
def should_output_file (output_formats : List OutputFormat) : Bool :=
  output_formats.any (fun fmt => !(stdoutInValue fmt))

/-- Python `str.replace(pat, rep)` on the character list: replaces each
non-overlapping occurrence of `pat`, scanning left to right.  The recursion
is bounded by a character budget that the wrapper sets to the whole input,
which is always enough because each step consumes at least one character
(every pattern the program uses is nonempty; Python's special behaviour for
an empty pattern is not modelled). -/
def pyReplaceAux (pat rep : List Char) : Nat → List Char → List Char
  | 0, _ => []
  | _ + 1, [] => []
  | n + 1, c :: cs =>
    if pat.isPrefixOf (c :: cs) then rep ++ pyReplaceAux pat rep n (List.drop pat.length (c :: cs))
    else c :: pyReplaceAux pat rep n cs

/-- Python `s.replace(pat, rep)`. -/
def pyReplace (s pat rep : String) : String :=
  ⟨pyReplaceAux pat.data rep.data (s.data.length + 1) s.data⟩

/-- Python whitespace test used by `str.strip` (ASCII fragment; the claims
never strip non-ASCII whitespace). -/
def pySpace (c : Char) : Bool :=
  c = ' ' || c = '\t' || c = '\n' || c = '\r' || c = '\x0b' || c = '\x0c'

/-- Python `str.strip()`. -/
def pyStrip (s : String) : String :=
  ⟨((s.data.dropWhile pySpace).reverse.dropWhile pySpace).reverse⟩

/-- Python `"    " * depth`, the indentation unit of the comment renderer. -/
def indentStr : Nat → String
  | 0 => ""
  | n + 1 => "    " ++ indentStr n

/-- The nine characters of the `re.sub` character class in
`sanitize_filename`. -/
def filenameBadChars : List Char := ['<', '>', ':', '"', '/', '\\', '|', '?', '*']

/-- The per-character action of `re.sub(r'[<>:"/\\|?*]', "_", filename)`:
every match of the character class is a single character, so the
substitution acts independently on each character. -/
def sanitizeChar (c : Char) : Char :=
  if c ∈ filenameBadChars then '_' else c

/-- `sanitize_filename`. -/
def sanitize_filename (filename : String) : String :=
  ⟨filename.data.map sanitizeChar⟩

/-- `try_include_title`. -/
def try_include_title (include_title : Bool) (markdown_content title : String) : String :=
  if include_title then "# " ++ title ++ "\n\n" ++ markdown_content else markdown_content

/-- `try_include_source`. -/
def try_include_source (include_source : Bool) (markdown_content url : String) : String :=
  if include_source then "[Source](" ++ url ++ ")\n\n" ++ markdown_content
  else markdown_content

/-- `try_add_yaml_frontmatter`.  `yaml.dump` of the three-entry metadata
dict is an external serializer, modelled as the parameter `yamlDump`
applied to title, url and the current timestamp (`datetime.now`, also
external, is the parameter `now`). -/
def try_add_yaml_frontmatter (yamlDump : String → String → String → String)
    (now : String) (yaml_frontmatter : Bool) (markdown_content title url : String) : String :=
  if !yaml_frontmatter then markdown_content
  else "---\n" ++ yamlDump title url now ++ "---\n\n" ++ markdown_content

/-- `BaseGrabber.post_process_markdown` (shared by `RedditGrabber` through
inheritance): source link, then title heading, then YAML front matter. -/
def post_process_markdown (yamlDump : String → String → String → String) (now : String)
    (url title markdown_content : String) (render_flags : RenderFlags) : String :=
  let markdown_content := try_include_source render_flags.include_source markdown_content url
  let markdown_content := try_include_title render_flags.include_title markdown_content title
  let markdown_content :=
    try_add_yaml_frontmatter yamlDump now render_flags.yaml_frontmatter markdown_content title url
  markdown_content

/-- Python exception values that the embedded code can raise and that are
distinguishable by the program (the wrapper handlers only interpolate
`str(e)`).  Message texts follow CPython conventions; where CPython's exact
wording is version-dependent the text is approximate, which no claim
observes. -/
inductive PyErr where
  | keyError (k : String)
  | indexError (msg : String)
  | typeError (msg : String)
  | attributeError (msg : String)
  | valueError (msg : String)
  | nameError (msg : String)
  | recursionError
deriving DecidableEq, Repr

/-- The rendering `f"{e}"` of an exception inside a wrapper message. -/
def PyErr.msg : PyErr → String
  | .keyError k => "'" ++ k ++ "'"
  | .indexError m => m
  | .typeError m => m
  | .attributeError m => m
  | .valueError m => m
  | .nameError m => m
  | .recursionError => "maximum recursion depth exceeded"

/-- Failure of the program: either a `ClickException` (caught by click and
reported with its message) or an uncaught Python exception. -/
inductive Err where
  | click (msg : String)
  | py (e : PyErr)
deriving DecidableEq, Repr

/-- The dictionary returned by the readability boundary
`simple_json_from_html_string`, reduced to the two keys the program reads
(`.get("content", "")` and `.get("title", "")`). -/
structure Rpy where
  content : Option String
  title : Option String
deriving DecidableEq, Repr

/-- `extract_readable_content_and_title`.  The readability boundary is the
parameter `boundary` (html and the `use_readability` flag in, an `Rpy` dict
or a raised exception rendered as text out).  The whole body runs inside
`try/except Exception`, so every failure — including the program's own
`ClickException("No content found")` — is re-wrapped into
`ClickException("Error processing HTML content: {e}")`. -/
def extract_readable_content_and_title (boundary : String → Bool → Except String Rpy)
    (html_content : String) (use_readability_js : Bool) : Except Err (String × String) :=
  let inner : Except String (String × String) :=
    match boundary html_content use_readability_js with
    | .error e => .error e
    | .ok rpy =>
      let content_html := rpy.content.getD ""
      let retried : Except String (Rpy × String) :=
        if content_html = "" && use_readability_js then
          match boundary html_content false with
          | .error e => .error e
          | .ok rpy2 =>
            let content2 := rpy2.content.getD ""
            if content2 = "" then .error "No content found" else .ok (rpy2, content2)
        else .ok (rpy, content_html)
      match retried with
      | .error e => .error e
      | .ok (rpy, content_html) =>
        .ok (pyReplace content_html "href=\"about:blank/" "href=\"../",
          pyStrip (rpy.title.getD ""))
  match inner with
  | .ok r => .ok r
  | .error e => .error (.click ("Error processing HTML content: " ++ e))

/-- JSON values as produced by `json.loads`.  Numbers are modelled as
integers: every number the program inspects is a Reddit score or index, and
no claim involves fractional values. -/
inductive JValue where
  | null
  | bool (b : Bool)
  | num (n : Int)
  | str (s : String)
  | arr (elems : List JValue)
  | obj (fields : List (String × JValue))

mutual

/-- Structural size of a JSON value, used only to pre-compute a recursion
budget that dominates the nesting depth. -/
def jsize : JValue → Nat
  | .null => 1
  | .bool _ => 1
  | .num _ => 1
  | .str _ => 1
  | .arr xs => 1 + jsizeList xs
  | .obj fs => 1 + jsizeFields fs

/-- Size of a list of JSON values. -/
def jsizeList : List JValue → Nat
  | [] => 1
  | x :: xs => 1 + jsize x + jsizeList xs

/-- Size of a JSON object's field list. -/
def jsizeFields : List (String × JValue) → Nat
  | [] => 1
  | (_, v) :: fs => 1 + jsize v + jsizeFields fs

end

/-- First-match association lookup, the access pattern of a parsed JSON
object (Python dicts cannot hold duplicate keys, so first-match is
exact). -/
def jlookup : List (String × JValue) → String → Option JValue
  | [], _ => none
  | (k, v) :: fs, key => if k = key then some v else jlookup fs key

/-- Python `v[key]` for a string key: dict lookup raising `KeyError` when
absent, `TypeError` on non-dicts. -/
def pySubscript : JValue → String → Except PyErr JValue
  | .obj fs, key =>
    match jlookup fs key with
    | some v => .ok v
    | none => .error (.keyError key)
  | .str _, _ => .error (.typeError "string indices must be integers")
  | .arr _, _ => .error (.typeError "list indices must be integers or slices, not str")
  | _, _ => .error (.typeError "object is not subscriptable")

/-- Python `v[i]` for a nonnegative integer literal index (the program only
uses 0 and 1).  Indexing a string yields its i-th character; indexing a
dict looks up the integer as a key, which a parsed JSON object (string keys
only) never contains. -/
def pyIndex : JValue → Nat → Except PyErr JValue
  | .arr xs, i =>
    match xs.get? i with
    | some v => .ok v
    | none => .error (.indexError "list index out of range")
  | .str s, i =>
    match s.data.get? i with
    | some c => .ok (.str ⟨[c]⟩)
    | none => .error (.indexError "string index out of range")
  | .obj _, i => .error (.keyError (toString i))
  | _, _ => .error (.typeError "object is not subscriptable")

/-- Python `v.get(key, default)`: only dicts have `.get`. -/
def pyGet (v : JValue) (key : String) (default : JValue) : Except PyErr JValue :=
  match v with
  | .obj fs => .ok ((jlookup fs key).getD default)
  | _ => .error (.attributeError "object has no attribute get")

/-- Python `str(x)` as interpolated by an f-string.  Containers are
abbreviated rather than fully rendered; no claim interpolates a container
(authors and scores in well-formed documents are strings and numbers). -/
def pyStrOf : JValue → String
  | .null => "None"
  | .bool true => "True"
  | .bool false => "False"
  | .num n => toString n
  | .str s => s
  | .arr _ => "[...]"
  | .obj _ => "<dict>"

/-- Python `x.replace(...)` requires a string receiver. -/
def pyAsStrForReplace : JValue → Except PyErr String
  | .str s => .ok s
  | _ => .error (.attributeError "object has no attribute replace")

/-- Python truthiness of a JSON value. -/
def pyTruthy : JValue → Bool
  | .null => false
  | .bool b => b
  | .num n => decide (n ≠ 0)
  | .str s => decide (s ≠ "")
  | .arr xs => !xs.isEmpty
  | .obj fs => !fs.isEmpty

/-- Python `isinstance(v, dict)`. -/
def JValue.isObj : JValue → Bool
  | .obj _ => true
  | _ => false

/-- Python `a < b` on sort keys (`__lt__`).  Scalars compare as in CPython
(booleans as 0/1 integers); `None`, dicts — and, in this model, lists — are
unordered and raise `TypeError`.  CPython orders lists lexicographically,
but no claim sorts list-valued keys, so only the error text could ever
differ there, and only inside the single wrapped conversion error. -/
def pyLt : JValue → JValue → Except PyErr Bool
  | .num a, .num b => .ok (decide (a < b))
  | .num a, .bool b => .ok (decide (a < if b then 1 else 0))
  | .bool a, .num b => .ok (decide ((if a then (1 : Int) else 0) < b))
  | .bool a, .bool b => .ok (decide ((if a then (1 : Int) else 0) < if b then 1 else 0))
  | .str a, .str b => .ok (decide (a < b))
  | _, _ => .error (.typeError "comparison not supported between instances of these types")

/-- Python iteration over a value (what `sorted(...)` does to its
argument): lists yield elements, strings their characters, dicts their
keys; scalars are not iterable. -/
def pyIterate : JValue → Except PyErr (List JValue)
  | .arr xs => .ok xs
  | .str s => .ok (s.data.map (fun c => .str ⟨[c]⟩))
  | .obj fs => .ok (fs.map (fun kv => .str kv.1))
  | _ => .error (.typeError "object is not iterable")

/-- The sort key `lambda x: x["data"].get("score", 0)` of
`parse_comments`. -/
def pyKeyOf (x : JValue) : Except PyErr JValue :=
  match pySubscript x "data" with
  | .error e => .error e
  | .ok d => pyGet d "score" (.num 0)

/-- Key extraction for every element, left to right, as `sorted`'s
decorate pass does. -/
def decorate : List JValue → Except PyErr (List (JValue × JValue))
  | [] => .ok []
  | x :: xs =>
    match pyKeyOf x with
    | .error e => .error e
    | .ok k =>
      match decorate xs with
      | .error e => .error e
      | .ok ps => .ok ((x, k) :: ps)

/-- Stable descending insertion of a decorated element: `p` goes before the
first element whose key is not greater than `p`'s, so earlier elements win
ties.  Mirrors `List.orderedInsert` under the relation
"key of the right element ≤ key of the left element". -/
def orderedInsertM (p : JValue × JValue) :
    List (JValue × JValue) → Except PyErr (List (JValue × JValue))
  | [] => .ok [p]
  | q :: qs =>
    match pyLt p.2 q.2 with
    | .error e => .error e
    | .ok true =>
      match orderedInsertM p qs with
      | .error e => .error e
      | .ok r => .ok (q :: r)
    | .ok false => .ok (p :: q :: qs)

/-- Stable descending sort of the decorated list.  `sorted(...,
reverse=True)` in CPython is timsort; any stable descending sort computes
the same list whenever the keys are totally ordered (as integer scores
are), and timsort's different comparison schedule is observable only in
which `TypeError` a heterogeneously-keyed list raises — inside the single
wrapped conversion error either way. -/
def sortPairsM : List (JValue × JValue) → Except PyErr (List (JValue × JValue))
  | [] => .ok []
  | p :: ps =>
    match sortPairsM ps with
    | .error e => .error e
    | .ok s => orderedInsertM p s

/-- `sorted(comments_data, key=lambda x: x["data"].get("score", 0),
reverse=True)`. -/
def sortCommentsM (comments_data : List JValue) : Except PyErr (List JValue) :=
  match decorate comments_data with
  | .error e => .error e
  | .ok pairs =>
    match sortPairsM pairs with
    | .error e => .error e
    | .ok sorted => .ok (sorted.map (fun p => p.1))

/-- The body of `parse_comments`' loop over the sorted sibling list.
Recursion into a comment's replies goes through the parameter `recur`,
which the fuelled driver below ties back to the sorting entry point. -/
def renderLoop (recur : List JValue → Nat → Except PyErr String) :
    List JValue → Nat → Except PyErr String
  | [], _ => .ok ""
  | comment :: rest, depth =>
    match pySubscript comment "data" with
    | .error e => .error e
    | .ok comment_data =>
      match pyGet comment_data "author" (.str "[deleted]") with
      | .error e => .error e
      | .ok author =>
        match pyGet comment_data "score" (.num 0) with
        | .error e => .error e
        | .ok score =>
          match pyGet comment_data "body" (.str "") with
          | .error e => .error e
          | .ok bodyV =>
            match pyAsStrForReplace bodyV with
            | .error e => .error e
            | .ok bodyS =>
              let body := pyReplace bodyS "\n" ("\n" ++ indentStr (depth + 1))
              let indentation := indentStr depth
              let block := indentation ++ "- **" ++ pyStrOf author ++ "** [" ++
                pyStrOf score ++ " score]:\n" ++ indentation ++ "    " ++ body ++ "\n\n"
              match pyGet comment_data "replies" .null with
              | .error e => .error e
              | .ok replies =>
                match
                  (if replies.isObj then
                    match pySubscript replies "data" with
                    | .error e => .error e
                    | .ok rd =>
                      match pySubscript rd "children" with
                      | .error e => .error e
                      | .ok ch =>
                        match pyIterate ch with
                        | .error e => .error e
                        | .ok nested => recur nested (depth + 1)
                  else (.ok "" : Except PyErr String)) with
                | .error e => .error e
                | .ok sub =>
                  match renderLoop recur rest depth with
                  | .error e => .error e
                  | .ok restMd => .ok (block ++ sub ++ restMd)

/-- Fuelled driver for the recursive `parse_comments`: one unit of fuel per
nesting level.  Fuel exhaustion plays the role of CPython's
`RecursionError` (also caught by the conversion wrapper); the wrapper below
passes enough fuel that exhaustion is unreachable on any input whose
traversal terminates, which the refinement proof for well-formed trees
makes precise. -/
def parseCommentsAux : Nat → List JValue → Nat → Except PyErr String
  | 0, _, _ => .error .recursionError
  | fuel + 1, comments_data, depth =>
    match sortCommentsM comments_data with
    | .error e => .error e
    | .ok sorted => renderLoop (parseCommentsAux fuel) sorted depth

/-- `parse_comments` (the inner function of `_reddit_json_to_markdown`),
with its recursion bounded by the size of its input, which strictly exceeds
the nesting depth of any chain of `replies` children. -/
def parse_comments (comments_data : List JValue) (depth : Nat) : Except PyErr String :=
  parseCommentsAux (jsizeList comments_data) comments_data depth

/-- The body of `_reddit_json_to_markdown`'s `try` block: post header, then
the comments section. -/
def redditInner (reddit_post_json : JValue) : Except PyErr String :=
  match pyIndex reddit_post_json 0 with
  | .error e => .error e
  | .ok w0 =>
    match pySubscript w0 "data" with
    | .error e => .error e
    | .ok d0 =>
      match pySubscript d0 "children" with
      | .error e => .error e
      | .ok ch0 =>
        match pyIndex ch0 0 with
        | .error e => .error e
        | .ok c0 =>
          match pySubscript c0 "data" with
          | .error e => .error e
          | .ok post_data =>
            match pyGet post_data "selftext" (.str "") with
            | .error e => .error e
            | .ok selftextV =>
              match pyAsStrForReplace selftextV with
              | .error e => .error e
              | .ok selftextS =>
                let selftext := pyReplace selftextS "\n" "\n> "
                match pyGet post_data "url" (.str "") with
                | .error e => .error e
                | .ok post_url =>
                  match pyGet post_data "author" (.str "[deleted]") with
                  | .error e => .error e
                  | .ok author =>
                    match pyGet post_data "score" (.num 0) with
                    | .error e => .error e
                    | .ok score =>
                      let markdown := "**" ++ pyStrOf author ++ "** [" ++ pyStrOf score ++
                        " score]:\n> " ++
                        (if selftext ≠ "" then selftext else pyStrOf post_url) ++ "\n\n"
                      match pyIndex reddit_post_json 1 with
                      | .error e => .error e
                      | .ok w1 =>
                        match pySubscript w1 "data" with
                        | .error e => .error e
                        | .ok d1 =>
                          match pySubscript d1 "children" with
                          | .error e => .error e
                          | .ok ch1 =>
                            match pyIterate ch1 with
                            | .error e => .error e
                            | .ok comments_data =>
                              match parse_comments comments_data 0 with
                              | .error e => .error e
                              | .ok comments_md =>
                                .ok (markdown ++ "## Comments\n\n" ++ comments_md)

/-- `_reddit_json_to_markdown`: the whole traversal runs inside
`try/except Exception`, which re-raises any failure as the single
`ClickException("Error converting Reddit JSON to Markdown: {e}")`. -/
def reddit_json_to_markdown (reddit_post_json : JValue) : Except Err String :=
  match redditInner reddit_post_json with
  | .ok md => .ok md
  | .error e => .error (.click ("Error converting Reddit JSON to Markdown: " ++ e.msg))

/-- The six components of `urllib.parse.urlparse`'s result.  Parsing and
unparsing themselves are Python standard-library externals, passed in as
functions; the program's own logic only edits the `path` component. -/
structure UrlParts where
  scheme : String
  netloc : String
  path : String
  params : String
  query : String
  fragment : String

/-- Python `s.rstrip("/")`: remove every trailing slash. -/
def pyRstripSlash (s : String) : String :=
  ⟨(s.data.reverse.dropWhile (fun c => c = '/')).reverse⟩

/-- `RedditGrabber._convert_to_json_url`: strip trailing slashes from the
path, append `.json`, reassemble. -/
def convert_to_json_url (urlparseF : String → UrlParts) (urlunparseF : UrlParts → String)
    (url : String) : String :=
  let parsed_url := urlparseF url
  let new_path := pyRstripSlash parsed_url.path ++ ".json"
  urlunparseF { parsed_url with path := new_path }

/-- `download_html_content`.  The transport (`requests.get` plus
`raise_for_status`) is the parameter: body text on success, the
`RequestException` text on failure, which the function wraps into a
`ClickException`. -/
def download_html_content (transport : String → Except String String) (url : String) :
    Except Err String :=
  match transport url with
  | .ok text => .ok text
  | .error e => .error (.click ("Error downloading " ++ url ++ ": " ++ e))

/-- `BaseGrabber.handle_missing_title`: an empty title falls back to the
template with `{date}` substituted (Python `str.format` restricted to the
one placeholder the program documents). -/
def handle_missing_title (dateStr title fallback_title : String) : String :=
  if title = "" then pyReplace fallback_title "{date}" dateStr else title

/-- `BaseGrabber.post_process_title`: fallback, then `unidecode` (external
ASCII transliteration, the parameter `unidec`). -/
def post_process_title (unidec : String → String) (dateStr title fallback_title : String) :
    String :=
  unidec (handle_missing_title dateStr title fallback_title)

/-- Title post-processing on the Reddit path, where the extracted title is
a JSON value defaulting to `None`: falsy values take the fallback template;
a truthy non-string would make `unidecode` raise. -/
def post_process_title_j (unidec : String → String) (dateStr : String) (titleV : JValue)
    (fallback_title : String) : Except PyErr String :=
  if !pyTruthy titleV then .ok (unidec (pyReplace fallback_title "{date}" dateStr))
  else
    match titleV with
    | .str s => .ok (unidec s)
    | _ => .error (.typeError "expected string or bytes-like object")

/-- The per-invocation artifact map `outputs`, keyed by format. -/
abbrev ArtifactMap := OutputFormat → Option String

/-- The empty dict literal `outputs = {}`. -/
def ArtifactMap.empty : ArtifactMap := fun _ => none

/-- Dict assignment `outputs[fmt] = content`. -/
def ArtifactMap.set (m : ArtifactMap) (k : OutputFormat) (v : String) : ArtifactMap :=
  fun q => if q = k then some v else m q

/-- `BaseGrabber.grab`.  External collaborators are parameters: `transport`
(HTTP), `boundary` (readability), `mdRender` (`convert_to_markdown`, i.e.
the markdownify/mdformat pipeline applied to a real HTML string), `unidec`,
`yamlDump`, and the two clock readings. -/
def BaseGrabber.grab (transport : String → Except String String)
    (boundary : String → Bool → Except String Rpy)
    (mdRender unidec : String → String)
    (yamlDump : String → String → String → String)
    (dateStr now : String)
    (url : String) (use_readability_js : Bool) (fallback_title : String)
    (render_flags : RenderFlags) (output_formats : List OutputFormat) :
    Except Err (String × ArtifactMap) :=
  match download_html_content transport url with
  | .error e => .error e
  | .ok html_content =>
    let outputs : ArtifactMap := ArtifactMap.empty
    let outputs :=
      if should_output_raw_html output_formats then outputs.set .RAW_HTML html_content
      else outputs
    match extract_readable_content_and_title boundary html_content use_readability_js with
    | .error e => .error e
    | .ok (html_readable_content, title0) =>
      let title := post_process_title unidec dateStr title0 fallback_title
      let outputs :=
        if should_output_readable_html output_formats then
          outputs.set .READABLE_HTML html_readable_content
        else outputs
      if should_output_markdown output_formats then
        let markdown_content := mdRender html_readable_content
        let markdown_content :=
          post_process_markdown yamlDump now url title markdown_content render_flags
        .ok (title, (outputs.set .MD markdown_content).set .STDOUT_MD markdown_content)
      else .ok (title, outputs)

/-- The chain
`json_content[0]["data"]["children"][0]["data"].get("title", None)`. -/
def redditTitleOf (json_content : JValue) : Except PyErr JValue :=
  match pyIndex json_content 0 with
  | .error e => .error e
  | .ok w0 =>
    match pySubscript w0 "data" with
    | .error e => .error e
    | .ok d0 =>
      match pySubscript d0 "children" with
      | .error e => .error e
      | .ok ch0 =>
        match pyIndex ch0 0 with
        | .error e => .error e
        | .ok c0 =>
          match pySubscript c0 "data" with
          | .error e => .error e
          | .ok pd => pyGet pd "title" .null

/-- `RedditGrabber.grab`: rejects HTML-bound or markdown-free format sets
before any network activity, then fetches the derived `.json` endpoint,
parses it (`jsonParse` models `json.loads`), extracts the title, converts,
decorates, and stores the markdown under both markdown keys. -/
def RedditGrabber.grab (urlparseF : String → UrlParts) (urlunparseF : UrlParts → String)
    (transport : String → Except String String)
    (jsonParse : String → Except PyErr JValue)
    (unidec : String → String)
    (yamlDump : String → String → String → String)
    (dateStr now : String)
    (url : String) (fallback_title : String)
    (render_flags : RenderFlags) (output_formats : List OutputFormat) :
    Except Err (String × ArtifactMap) :=
  if should_output_raw_html output_formats || should_output_readable_html output_formats
      || !should_output_markdown output_formats then
    .error (.click "Reddit posts can only be converted to Markdown.")
  else
    match download_html_content transport (convert_to_json_url urlparseF urlunparseF url) with
    | .error e => .error e
    | .ok body =>
      match jsonParse body with
      | .error e => .error (.py e)
      | .ok json_content =>
        match redditTitleOf json_content with
        | .error e => .error (.py e)
        | .ok titleV =>
          match post_process_title_j unidec dateStr titleV fallback_title with
          | .error e => .error (.py e)
          | .ok title =>
            match reddit_json_to_markdown json_content with
            | .error e => .error e
            | .ok md0 =>
              let markdown_content := post_process_markdown yamlDump now url title md0 render_flags
              .ok (title,
                (ArtifactMap.empty.set .MD markdown_content).set .STDOUT_MD markdown_content)

/-- Observable filesystem and console state of one invocation: written
files (path to content), directories created by `mkdir`, and the lines
printed by `click.echo`. -/
structure World where
  files : List (String × String)
  dirs : List String
  stdout : List String
deriving DecidableEq, Repr

/-- `click.echo(line)`. -/
def World.echo (w : World) (line : String) : World :=
  { w with stdout := w.stdout ++ [line] }

/-- Content of the file at a path, if present. -/
def lookupFile : List (String × String) → String → Option String
  | [], _ => none
  | (p, c) :: fs, path => if p = path then some c else lookupFile fs path

/-- Overwriting file-store update. -/
def setFile : List (String × String) → String → String → List (String × String)
  | [], path, c => [(path, c)]
  | (p, d) :: fs, path, c => if p = path then (path, c) :: fs else (p, d) :: setFile fs path c

/-- `open(path, "w").write(content)` — the model filesystem always accepts
a write; an OS-level failure (which the source wraps into its own
`ClickException`) is outside every claim. -/
def World.write (w : World) (path content : String) : World :=
  { w with files := setFile w.files path content }

/-- The domain computed by `create_output_dir`:
`urlparse(url).netloc.replace("www.", "")` (every occurrence, as
`str.replace` does) with the empty-host fallback.  `netlocOf` models
`urlparse(...).netloc`. -/
def domainOf (netlocOf : String → String) (url : String) : String :=
  let domain := pyReplace (netlocOf url) "www." ""
  if domain = "" then "unknown_domain" else domain

/-- `create_output_dir`: computes the domain directory and performs
`mkdir(exist_ok=True, parents=True)` on it.  `Path(".") / domain`
normalises to plain `domain`. -/
def create_output_dir (netlocOf : String → String) (url : String) (w : World) :
    String × World :=
  let domain := domainOf netlocOf url
  (domain, { w with dirs := if domain ∈ w.dirs then w.dirs else w.dirs ++ [domain] })

/-- `Path(output_dir) / name` as a string: `Path(".") / name` normalises to
`name`. -/
def pathJoin (dir name : String) : String :=
  if dir = "." then name else dir ++ "/" ++ name

/-- `write_to_file`.  The content is optional because the caller passes
`outputs.get(fmt)`; writing `None` raises a `TypeError`, which the source
wraps into its write-failure `ClickException` (never reached from `save`,
whose artifact maps cover every requested format). -/
def write_to_file (markdown_content : Option String) (output_dir safe_title : String)
    (extension : OutputFormat) (overwrite : Bool) (w : World) : Except Err World :=
  let output_file := pathJoin output_dir (safe_title ++ "." ++ extension.value)
  if !overwrite && (lookupFile w.files output_file).isSome then
    .ok (w.echo ("File " ++ output_file ++ " already exists. Use --overwrite to replace it."))
  else
    match markdown_content with
    | some c =>
      .ok ((w.write output_file c).echo
        ("Saved " ++ extension.value ++ " content to " ++ output_file))
    | none =>
      .error (.click ("Error writing to file " ++ output_file ++
        ": write argument must be str, not None"))

/-- The `for fmt in output_flags.output_formats` loop of `output`.  When a
file-bound format is reached but the directory branch never ran,
`output_dir` is an unbound local — Python's `NameError`/
`UnboundLocalError` (unreachable from `save`, whose artifact maps always
cover the requested file-bound formats). -/
def outputLoop (outputs : ArtifactMap) (overwrite : Bool)
    (dirStem : Option (String × String)) :
    List OutputFormat → World → Except Err World
  | [], w => .ok w
  | fmt :: rest, w =>
    let content := outputs fmt
    if should_output_file [fmt] then
      match dirStem with
      | none =>
        .error (.py (.nameError "cannot access local variable output_dir"))
      | some (output_dir, safe_title) =>
        match write_to_file content output_dir safe_title fmt overwrite w with
        | .error e => .error e
        | .ok w2 => outputLoop outputs overwrite dirStem rest w2
    else outputLoop outputs overwrite dirStem rest (w.echo (content.getD ""))

/-- `output`.  Note the source's guard: `should_output_file(outputs)` is
called on the artifact dict, so Python iterates the dict's *keys* — the
formats that were produced — not the formats that were requested. -/
def output (netlocOf : String → String) (title : String) (outputs : ArtifactMap)
    (url : String) (output_flags : OutputFlags) (w : World) : Except Err World :=
  let dictKeys := allOutputFormats.filter (fun f => (outputs f).isSome)
  if should_output_file dictKeys then
    let dirW :=
      if output_flags.create_domain_subdir then create_output_dir netlocOf url w
      else (".", w)
    let safe_title := sanitize_filename title
    outputLoop outputs output_flags.overwrite (some (dirW.1, safe_title))
      output_flags.output_formats dirW.2
  else
    outputLoop outputs output_flags.overwrite none output_flags.output_formats w

/-- The on-disk path `output` would use for a file-bound format, for
stating claims. -/
def outputPathFor (netlocOf : String → String) (url title : String) (flags : OutputFlags)
    (fmt : OutputFormat) : String :=
  pathJoin (if flags.create_domain_subdir then domainOf netlocOf url else ".")
    (sanitize_filename title ++ "." ++ fmt.value)

/-- Modelled from the spec: inline HTML fragments as consumed by the
Markdown renderer.  The real conversion (`convert_to_markdown`) parses an
HTML string through the external markdownify library and finishes with the
opaque mdformat pretty-printer; spec section 4.6 describes the conversion
as a standard elementwise HTML-to-Markdown rendering on which the source's
`GrabitMarkdownConverter` overrides sit.  Missing from src/: markdownify's
`MarkdownConverter` and `mdformat`.  Only the element kinds the emphasis
claim mentions are modelled. -/
inductive HtmlInline where
  | text (s : String)
  | em (children : List HtmlInline)
  | i (children : List HtmlInline)
  | strong (children : List HtmlInline)
  | b (children : List HtmlInline)

mutual

/-- Modelled from the spec: the standard inline conversion with the
source's overrides — `convert_em` delegates to `convert_i`, which wraps in
`UNDERSCORE` (`"_"`), while `convert_strong`/`convert_b` keep the doubled
asterisk of the default strong/em symbol. -/
def convertInline : HtmlInline → String
  | .text s => s
  | .em cs => "_" ++ convertInlineList cs ++ "_"
  | .i cs => "_" ++ convertInlineList cs ++ "_"
  | .strong cs => "**" ++ convertInlineList cs ++ "**"
  | .b cs => "**" ++ convertInlineList cs ++ "**"

/-- Concatenated rendering of a sequence of inline nodes. -/
def convertInlineList : List HtmlInline → String
  | [] => ""
  | x :: xs => convertInline x ++ convertInlineList xs

end

/-- A comment node as the spec's data model describes it: author (absent
means deleted), integer score (absent means 0), body text (absent means
empty), and the ordered sequence of children. -/
structure RComment where
  author : Option String
  score : Option Int
  body : Option String
  replies : List RComment

/-- The sibling sort key of the spec: score, missing treated as 0. -/
def scoreKey (c : RComment) : Int := c.score.getD 0

/-- The sibling order of the spec: descending by score, and a stable sort
keeps the earlier element first on ties — insertion sort under
"right key ≤ left key" realises exactly that order. -/
def sortCommentsSpec (cs : List RComment) : List RComment :=
  List.insertionSort (fun a b => scoreKey b ≤ scoreKey a) cs

mutual

/-- Nesting depth of a comment (1 plus the depth of its children). -/
def cdepth : RComment → Nat
  | ⟨_, _, _, rs⟩ => 1 + cdepthList rs

/-- Nesting depth of a sibling list. -/
def cdepthList : List RComment → Nat
  | [] => 0
  | c :: cs => max (cdepth c) (cdepthList cs)

end

/-- One pass of the spec's comment-tree rendering over an already sorted
sibling list: each comment emits its header line and indented body followed
by a blank line, then its rendered children (through `recur`), then the
remaining siblings. -/
def renderSpecLoop (recur : List RComment → Nat → String) :
    List RComment → Nat → String
  | [], _ => ""
  | c :: rest, depth =>
    let body := pyReplace (c.body.getD "") "\n" ("\n" ++ indentStr (depth + 1))
    let indentation := indentStr depth
    let block := indentation ++ "- **" ++ c.author.getD "[deleted]" ++ "** [" ++
      toString (scoreKey c) ++ " score]:\n" ++ indentation ++ "    " ++ body ++ "\n\n"
    block ++ recur c.replies (depth + 1) ++ renderSpecLoop recur rest depth

/-- Fuelled driver of the spec-side rendering, consuming one unit per
nesting level (the wrapper passes one more than the tree depth, which the
refinement proof shows is never exhausted). -/
def renderSpecAux : Nat → List RComment → Nat → String
  | 0, _, _ => ""
  | fuel + 1, cs, depth => renderSpecLoop (renderSpecAux fuel) (sortCommentsSpec cs) depth

/-- The spec's comment-tree rendering: sort each sibling list by score
descending (stable), emit each comment's block, recurse into its children
immediately after. -/
def renderCommentsSpec (cs : List RComment) (depth : Nat) : String :=
  renderSpecAux (cdepthList cs + 1) cs depth

mutual

/-- A JSON value encodes a comment: an object whose `data` field is an
object carrying the optional `author` (string), `score` (number) and
`body` (string) fields and whose `replies` field encodes the children. -/
inductive EncComment : JValue → RComment → Prop where
  | mk : ∀ (fs ds : List (String × JValue)) (a : Option String) (s : Option Int)
      (b : Option String) (rs : List RComment),
      jlookup fs "data" = some (.obj ds) →
      jlookup ds "author" = Option.map JValue.str a →
      jlookup ds "score" = Option.map JValue.num s →
      jlookup ds "body" = Option.map JValue.str b →
      EncReplies (jlookup ds "replies") rs →
      EncComment (.obj fs) ⟨a, s, b, rs⟩

/-- The `replies` field encodes a child list: an absent field or any
non-dict value means no children; a dict must have the nested listing
shape `{"data": {"children": [...]}}` whose array encodes the children
elementwise. -/
inductive EncReplies : Option JValue → List RComment → Prop where
  | absent : EncReplies none []
  | nonObj : ∀ v, v.isObj = false → EncReplies (some v) []
  | listing : ∀ (rfs ws : List (String × JValue)) (js : List JValue) (cs : List RComment),
      jlookup rfs "data" = some (.obj ws) →
      jlookup ws "children" = some (.arr js) →
      EncList js cs →
      EncReplies (some (.obj rfs)) cs

/-- Elementwise encoding of a sibling list. -/
inductive EncList : List JValue → List RComment → Prop where
  | nil : EncList [] []
  | cons : ∀ j c js cs, EncComment j c → EncList js cs → EncList (j :: js) (c :: cs)

end

/-- A decorated pair encodes a comment: the element encodes it and the
extracted key is its score. -/
def EncPair (p : JValue × JValue) (c : RComment) : Prop :=
  EncComment p.1 c ∧ p.2 = .num (scoreKey c)

/-!
Theorems.  Helper lemmas come first, then one theorem per claim, each with
its witness or counterexample where applicable.
-/

/-- Replacing with a nonempty replacement never empties a nonempty
string. -/
theorem pyReplace_ne_empty {s pat rep : String} (hs : s ≠ "") (hrep : rep.data ≠ []) :
    pyReplace s pat rep ≠ "" := by
  intro h
  apply hs
  have hdata : (pyReplace s pat rep).data = [] := by rw [h]
  apply String.ext
  show s.data = []
  by_contra hne
  obtain ⟨c, cs, hcons⟩ : ∃ c cs, s.data = c :: cs := by
    cases hsd : s.data with
    | nil => exact absurd hsd hne
    | cons c cs => exact ⟨c, cs, rfl⟩
  rw [pyReplace, hcons] at hdata
  simp only [List.length_cons] at hdata
  rw [pyReplaceAux] at hdata
  split at hdata
  · exact hrep (List.append_eq_nil.mp hdata).1
  · exact List.cons_ne_nil _ _ hdata

/-- Wrapped download errors never collide with the unsupported-format
message (their first characters differ). -/
theorem downloading_msg_ne (s : String) :
    ("Error downloading " ++ s) ≠ "Reddit posts can only be converted to Markdown." := by
  intro h
  have h2 : ("Error downloading " ++ s).data.head? = some 'E' := rfl
  rw [h] at h2
  exact absurd h2 (by decide)

/-- Wrapped conversion errors never collide with the unsupported-format
message. -/
theorem converting_msg_ne (s : String) :
    ("Error converting Reddit JSON to Markdown: " ++ s) ≠
      "Reddit posts can only be converted to Markdown." := by
  intro h
  have h2 : ("Error converting Reddit JSON to Markdown: " ++ s).data.head? = some 'E' := rfl
  rw [h] at h2
  exact absurd h2 (by decide)

/-- C8: the filename-sanitizing transform replaces exactly the nine
characters of the class with underscore and nothing else (stated as the
per-character image of the input), produces no occurrence of any of the
nine characters, and is idempotent. -/
theorem c8_sanitize_filename_clean_and_idempotent (s : String) :
    (sanitize_filename s).data = s.data.map sanitizeChar ∧
    (∀ c ∈ (sanitize_filename s).data, c ∉ filenameBadChars) ∧
    sanitize_filename (sanitize_filename s) = sanitize_filename s := by
  refine ⟨rfl, ?_, ?_⟩
  · intro c hc
    simp only [sanitize_filename, List.mem_map] at hc
    obtain ⟨a, -, rfl⟩ := hc
    unfold sanitizeChar
    split
    · simp [filenameBadChars]
    · assumption
  · apply String.ext
    simp only [sanitize_filename, List.map_map]
    apply List.map_congr_left
    intro a _
    simp only [Function.comp_apply]
    unfold sanitizeChar
    split
    · simp [filenameBadChars]
    · rfl

/-- Witness for C8 at the spec's own example string. -/
theorem c8_sanitize_filename_witness :
    (sanitize_filename "invalid|file:name.txt").data =
      "invalid|file:name.txt".data.map sanitizeChar ∧
    sanitize_filename (sanitize_filename "invalid|file:name.txt") =
      sanitize_filename "invalid|file:name.txt" := by
  refine ⟨(c8_sanitize_filename_clean_and_idempotent "invalid|file:name.txt").1,
    (c8_sanitize_filename_clean_and_idempotent "invalid|file:name.txt").2.2⟩

/-- C3 counterexample: with enhanced extraction off and a boundary that
returns empty content, extraction succeeds and returns the empty content —
the claim's clause that extract never returns successfully with empty
content is false as stated. -/
theorem c3_counterexample_empty_content_success :
    extract_readable_content_and_title (fun _ _ => .ok ⟨some "", some " t "⟩)
      "<html></html>" false = .ok ("", "t") := by
  rfl

/-- C3 amended: when enhanced extraction is requested, a successful result
never has empty content, and an empty enhanced result makes extraction
behave exactly as one retry with the flag off — succeeding with that
retry's (post-processed) content when nonempty and failing with the wrapped
no-content error otherwise. -/
theorem c3_extract_enhanced_fallback (boundary : String → Bool → Except String Rpy)
    (html : String) :
    (∀ c t, extract_readable_content_and_title boundary html true = .ok (c, t) → c ≠ "") ∧
    (∀ r, boundary html true = .ok r → r.content.getD "" = "" →
      extract_readable_content_and_title boundary html true =
        match boundary html false with
        | .error e => .error (.click ("Error processing HTML content: " ++ e))
        | .ok r2 =>
          if r2.content.getD "" = "" then
            .error (.click "Error processing HTML content: No content found")
          else
            .ok (pyReplace (r2.content.getD "") "href=\"about:blank/" "href=\"../",
              pyStrip (r2.title.getD ""))) := by
  constructor
  · intro c t hok
    unfold extract_readable_content_and_title at hok
    cases h1 : boundary html true with
    | error e => simp [h1] at hok
    | ok r1 =>
      by_cases hc1 : r1.content.getD "" = ""
      · cases h2 : boundary html false with
        | error e => simp [h1, h2, hc1] at hok
        | ok r2 =>
          by_cases hc2 : r2.content.getD "" = ""
          · simp [h1, h2, hc1, hc2] at hok
          · simp [h1, h2, hc1, hc2] at hok
            exact hok.1 ▸ pyReplace_ne_empty hc2 (by decide)
      · simp [h1, hc1] at hok
        exact hok.1 ▸ pyReplace_ne_empty hc1 (by decide)
  · intro r h1 hc1
    unfold extract_readable_content_and_title
    cases h2 : boundary html false with
    | error e => simp [h1, h2, hc1]
    | ok r2 =>
      by_cases hc2 : r2.content.getD "" = ""
      · simp [h1, h2, hc1, hc2]
      · simp [h1, h2, hc1, hc2]

/-- Witness for C3's amended theorem: a boundary whose enhanced mode is
empty and whose plain mode has content, run through the theorem. -/
theorem c3_extract_enhanced_fallback_witness :
    extract_readable_content_and_title
      (fun _ js => if js then .ok ⟨some "", some ""⟩ else .ok ⟨some "x", some " T "⟩)
      "<p>h</p>" true = .ok ("x", "T") := by
  have h := (c3_extract_enhanced_fallback
    (fun _ js => if js then .ok ⟨some "", some ""⟩ else .ok ⟨some "x", some " T "⟩)
    "<p>h</p>").2 ⟨some "", some ""⟩ rfl rfl
  rw [h]
  rfl

/-- C5: the decorated markdown is exactly the front-matter block (when
enabled) followed by the title heading (when enabled) followed by the
source link (when enabled) followed by the undecorated body, for every
subset of the three flags — so front matter is outermost, a disabled
decoration contributes nothing, and the body is a suffix of the result. -/
theorem c5_post_process_markdown_order (yamlDump : String → String → String → String)
    (now url title md : String) (rf : RenderFlags) :
    post_process_markdown yamlDump now url title md rf =
      (if rf.yaml_frontmatter then "---\n" ++ yamlDump title url now ++ "---\n\n" else "") ++
      ((if rf.include_title then "# " ++ title ++ "\n\n" else "") ++
        ((if rf.include_source then "[Source](" ++ url ++ ")\n\n" else "") ++ md)) ∧
    ∃ p, post_process_markdown yamlDump now url title md rf = p ++ md := by
  obtain ⟨src, tit, fm⟩ := rf
  constructor
  · cases src <;> cases tit <;> cases fm <;>
      simp [post_process_markdown, try_include_source, try_include_title,
        try_add_yaml_frontmatter, String.append_assoc]
  · refine ⟨(if fm then "---\n" ++ yamlDump title url now ++ "---\n\n" else "") ++
      ((if tit then "# " ++ title ++ "\n\n" else "") ++
        (if src then "[Source](" ++ url ++ ")\n\n" else "")), ?_⟩
    cases src <;> cases tit <;> cases fm <;>
      simp [post_process_markdown, try_include_source, try_include_title,
        try_add_yaml_frontmatter, String.append_assoc]

/-- C6: on every JSON document the conversion either succeeds with a full
markdown rendering or fails with the single wrapped conversion error —
never an unwrapped exception, and in the failure case no markdown value
exists at all (so nothing partial can be stored or written); concretely, an
empty top-level array is such an unexpected shape. -/
theorem c6_reddit_conversion_total_or_wrapped :
    (∀ j : JValue, (∃ md, reddit_json_to_markdown j = .ok md) ∨
      (∃ m, reddit_json_to_markdown j =
        .error (.click ("Error converting Reddit JSON to Markdown: " ++ m)))) ∧
    reddit_json_to_markdown (.arr []) =
      .error (.click "Error converting Reddit JSON to Markdown: list index out of range") := by
  constructor
  · intro j
    unfold reddit_json_to_markdown
    cases h : redditInner j with
    | ok md => exact Or.inl ⟨md, rfl⟩
    | error e => exact Or.inr ⟨e.msg, rfl⟩
  · rfl

/-- C7: for every environment and option set, the Reddit strategy fails
with the unsupported-format error exactly when raw or readable HTML is
requested or no markdown format is — and since the equivalence holds for
every transport, the failure is decided before any fetch, and the error
carries no artifact map. -/
theorem c7_reddit_grab_unsupported_iff (urlparseF : String → UrlParts)
    (urlunparseF : UrlParts → String) (transport : String → Except String String)
    (jsonParse : String → Except PyErr JValue) (unidec : String → String)
    (yamlDump : String → String → String → String) (dateStr now url fallback_title : String)
    (render_flags : RenderFlags) (output_formats : List OutputFormat) :
    RedditGrabber.grab urlparseF urlunparseF transport jsonParse unidec yamlDump dateStr now
        url fallback_title render_flags output_formats =
      .error (.click "Reddit posts can only be converted to Markdown.") ↔
    (should_output_raw_html output_formats || should_output_readable_html output_formats
      || !should_output_markdown output_formats) = true := by
  constructor
  · intro h
    by_contra hcond
    rw [RedditGrabber.grab, if_neg (by simpa using hcond)] at h
    cases hdl : download_html_content transport (convert_to_json_url urlparseF urlunparseF url) with
    | error e =>
      simp only [hdl, Except.error.injEq] at h
      subst h
      unfold download_html_content at hdl
      cases htr : transport (convert_to_json_url urlparseF urlunparseF url) with
      | ok text => simp [htr] at hdl
      | error e2 =>
        simp only [htr, Except.error.injEq, Err.click.injEq] at hdl
        rw [String.append_assoc, String.append_assoc] at hdl
        exact downloading_msg_ne _ hdl
    | ok body =>
      simp only [hdl] at h
      cases hjp : jsonParse body with
      | error e => simp [hjp] at h
      | ok json_content =>
        simp only [hjp] at h
        cases hti : redditTitleOf json_content with
        | error e => simp [hti] at h
        | ok titleV =>
          simp only [hti] at h
          cases hpt : post_process_title_j unidec dateStr titleV fallback_title with
          | error e => simp [hpt] at h
          | ok title =>
            simp only [hpt] at h
            cases hcv : reddit_json_to_markdown json_content with
            | error e =>
              simp only [hcv, Except.error.injEq] at h
              subst h
              unfold reddit_json_to_markdown at hcv
              cases hin : redditInner json_content with
              | ok md => simp [hin] at hcv
              | error pe =>
                simp only [hin, Except.error.injEq, Err.click.injEq] at hcv
                exact converting_msg_ne pe.msg hcv
            | ok md0 => simp [hcv] at h
  · intro h
    rw [RedditGrabber.grab, if_pos (by simpa using h)]

/-- Witness for C7: requesting raw HTML from the Reddit strategy is refused
regardless of the (here failing) transport. -/
theorem c7_reddit_grab_unsupported_witness :
    RedditGrabber.grab (fun _ => ⟨"https", "www.reddit.com", "/r/x", "", "", ""⟩)
      (fun p => p.path) (fun _ => .error "offline") (fun _ => .error (.valueError "no json"))
      (fun s => s) (fun _ _ _ => "") "2026-10-12" "2026-10-12 00:00"
      "https://www.reddit.com/r/x" "Untitled {date}" ⟨false, true, true⟩ [.RAW_HTML, .MD] =
      .error (.click "Reddit posts can only be converted to Markdown.") := by
  exact (c7_reddit_grab_unsupported_iff _ _ _ _ _ _ _ _ _ _ _ _).mpr (by decide)

/-- C10: whenever either strategy succeeds, its artifact map holds equal
entries under the file-markdown and stdout-markdown keys (so both keys are
present together or absent together), and when any markdown format was
requested the shared entry is present. -/
theorem c10_markdown_keys_equal (urlparseF : String → UrlParts)
    (urlunparseF : UrlParts → String) (transport : String → Except String String)
    (boundary : String → Bool → Except String Rpy)
    (jsonParse : String → Except PyErr JValue) (mdRender unidec : String → String)
    (yamlDump : String → String → String → String)
    (dateStr now url fallback_title : String) (use_readability_js : Bool)
    (render_flags : RenderFlags) (output_formats : List OutputFormat) :
    (∀ t out, BaseGrabber.grab transport boundary mdRender unidec yamlDump dateStr now url
        use_readability_js fallback_title render_flags output_formats = .ok (t, out) →
      out .MD = out .STDOUT_MD ∧
        (should_output_markdown output_formats = true → (out .MD).isSome = true)) ∧
    (∀ t out, RedditGrabber.grab urlparseF urlunparseF transport jsonParse unidec yamlDump
        dateStr now url fallback_title render_flags output_formats = .ok (t, out) →
      out .MD = out .STDOUT_MD ∧ (out .MD).isSome = true) := by
  constructor
  · intro t out h
    unfold BaseGrabber.grab at h
    cases hdl : download_html_content transport url with
    | error e => simp [hdl] at h
    | ok html_content =>
      simp only [hdl] at h
      cases hex : extract_readable_content_and_title boundary html_content use_readability_js with
      | error e => simp [hex] at h
      | ok rc =>
        obtain ⟨html_readable_content, title0⟩ := rc
        simp only [hex] at h
        by_cases hmd : should_output_markdown output_formats = true
        · rw [if_pos hmd] at h
          simp only [Except.ok.injEq, Prod.mk.injEq] at h
          rw [← h.2]
          exact ⟨rfl, fun _ => rfl⟩
        · rw [if_neg hmd] at h
          simp only [Except.ok.injEq, Prod.mk.injEq] at h
          rw [← h.2]
          refine ⟨?_, fun hc => absurd hc hmd⟩
          by_cases hr : should_output_raw_html output_formats = true <;>
            by_cases hh : should_output_readable_html output_formats = true <;>
              simp [hr, hh, ArtifactMap.set, ArtifactMap.empty]
  · intro t out h
    unfold RedditGrabber.grab at h
    by_cases hcond : (should_output_raw_html output_formats ||
        should_output_readable_html output_formats ||
        !should_output_markdown output_formats) = true
    · rw [if_pos hcond] at h
      exact Except.noConfusion h
    · rw [if_neg hcond] at h
      cases hdl : download_html_content transport
          (convert_to_json_url urlparseF urlunparseF url) with
      | error e => simp [hdl] at h
      | ok body =>
        simp only [hdl] at h
        cases hjp : jsonParse body with
        | error e => simp [hjp] at h
        | ok json_content =>
          simp only [hjp] at h
          cases hti : redditTitleOf json_content with
          | error e => simp [hti] at h
          | ok titleV =>
            simp only [hti] at h
            cases hpt : post_process_title_j unidec dateStr titleV fallback_title with
            | error e => simp [hpt] at h
            | ok title =>
              simp only [hpt] at h
              cases hcv : reddit_json_to_markdown json_content with
              | error e => simp [hcv] at h
              | ok md0 =>
                simp only [hcv] at h
                simp only [Except.ok.injEq, Prod.mk.injEq] at h
                rw [← h.2]
                exact ⟨rfl, rfl⟩

/-- A two-element Reddit document with one self post and no comments, used
as concrete input by the C10 witness. -/
def sampleRedditDoc : JValue := .arr [
  .obj [("data", .obj [("children", .arr [
    .obj [("data", .obj [("title", .str "T"), ("selftext", .str "s"),
      ("author", .str "a"), ("score", .num 3)])]])])],
  .obj [("data", .obj [("children", .arr [])])]]

/-- Witness for C10: both strategies run on concrete collaborators; the
success hypotheses are discharged by evaluation and the key equalities come
from the theorem. -/
theorem c10_markdown_keys_equal_witness :
    (((ArtifactMap.empty.set .MD "<p>x</p>").set .STDOUT_MD "<p>x</p>") .MD =
      ((ArtifactMap.empty.set .MD "<p>x</p>").set .STDOUT_MD "<p>x</p>") .STDOUT_MD) ∧
    (((ArtifactMap.empty.set .MD ("**a** [3 score]:\n> s\n\n" ++ "## Comments\n\n" ++ ""))
        |>.set .STDOUT_MD ("**a** [3 score]:\n> s\n\n" ++ "## Comments\n\n" ++ "")) .MD).isSome
      = true := by
  constructor
  · exact ((c10_markdown_keys_equal (fun _ => ⟨"https", "www.reddit.com", "/r/x", "", "", ""⟩)
      (fun p => p.path) (fun _ => .ok "<html>x</html>")
      (fun _ _ => .ok ⟨some "<p>x</p>", some "T"⟩) (fun _ => .ok sampleRedditDoc)
      (fun s => s) (fun s => s) (fun _ _ _ => "") "2026-10-12" "2026-10-12 00:00"
      "https://example.com/a" "Untitled {date}" true ⟨false, false, false⟩ [.MD]).1
      "T" _ rfl).1
  · exact ((c10_markdown_keys_equal (fun _ => ⟨"https", "www.reddit.com", "/r/x", "", "", ""⟩)
      (fun p => p.path) (fun _ => .ok "two wrappers")
      (fun _ _ => .ok ⟨some "<p>x</p>", some "T"⟩) (fun _ => .ok sampleRedditDoc)
      (fun s => s) (fun s => s) (fun _ _ _ => "") "2026-10-12" "2026-10-12 00:00"
      "https://www.reddit.com/r/x" "Untitled {date}" true ⟨false, false, false⟩
      [.STDOUT_MD]).2 "T" _ rfl).2

/-- Negation shuffle for booleans. -/
theorem bool_not_true {b : Bool} (h : (!b) = true) : b = false := by
  cases b
  · rfl
  · exact Bool.noConfusion h

/-- `should_output_file` on a one-element list is the file-bound test. -/
theorem should_output_file_singleton (f : OutputFormat) :
    should_output_file [f] = !stdoutInValue f := by
  simp [should_output_file]

/-- The `value` strings of the format enum are pairwise distinct. -/
theorem outputFormat_value_inj {f g : OutputFormat} (h : f.value = g.value) : f = g := by
  cases f <;> cases g <;> first | rfl | exact absurd h (by decide)

/-- Every format is listed in `allOutputFormats`. -/
theorem mem_allOutputFormats (f : OutputFormat) : f ∈ allOutputFormats := by
  cases f <;> simp [allOutputFormats]

/-- String concatenation cancels on the left. -/
theorem string_append_left_cancel {a b c : String} (h : a ++ b = a ++ c) : b = c := by
  apply String.ext
  have h2 := congrArg String.data h
  rw [String.data_append, String.data_append] at h2
  exact List.append_cancel_left h2

/-- Distinct formats get distinct target paths (same directory, same
stem). -/
theorem pathFor_ne (d st : String) {f g : OutputFormat} (hfg : f ≠ g) :
    pathJoin d (st ++ "." ++ f.value) ≠ pathJoin d (st ++ "." ++ g.value) := by
  intro h
  apply hfg
  apply outputFormat_value_inj
  unfold pathJoin at h
  split at h
  · exact string_append_left_cancel (a := st ++ ".") h
  · exact string_append_left_cancel (a := st ++ ".")
      (string_append_left_cancel (a := d ++ "/") h)

/-- Looking up the path just written. -/
theorem lookupFile_setFile_self (fs : List (String × String)) (p c : String) :
    lookupFile (setFile fs p c) p = some c := by
  induction fs with
  | nil => simp [setFile, lookupFile]
  | cons pc fs ih =>
    obtain ⟨q, d⟩ := pc
    by_cases hq : q = p
    · subst hq
      simp [setFile, lookupFile]
    · simp only [setFile, if_neg hq, lookupFile]
      exact ih

/-- Writing one path leaves every other path unchanged. -/
theorem lookupFile_setFile_ne (fs : List (String × String)) (p c q : String) (hq : q ≠ p) :
    lookupFile (setFile fs p c) q = lookupFile fs q := by
  induction fs with
  | nil =>
    simp only [setFile, lookupFile]
    rw [if_neg (fun e => hq e.symm)]
  | cons pc fs ih =>
    obtain ⟨r, d⟩ := pc
    by_cases hr : r = p
    · subst hr
      simp only [setFile, if_pos rfl, lookupFile]
      rw [if_neg (fun e => hq e.symm), if_neg (fun e => hq e.symm)]
    · simp only [setFile, if_neg hr, lookupFile]
      by_cases hrq : r = q
      · rw [if_pos hrq, if_pos hrq]
      · rw [if_neg hrq, if_neg hrq]
        exact ih

/-- Case analysis of a successful `write_to_file`: either the
existing-file skip (files untouched, notice printed) or an actual write
(requires overwrite or absence, content present, success notice). -/
theorem write_to_file_ok_elim {mc : Option String} {d st : String} {f : OutputFormat}
    {ow : Bool} {w w2 : World} (h : write_to_file mc d st f ow w = .ok w2) :
    (ow = false ∧ (lookupFile w.files (pathJoin d (st ++ "." ++ f.value))).isSome = true ∧
      w2.files = w.files ∧
      w2.stdout = w.stdout ++ ["File " ++ pathJoin d (st ++ "." ++ f.value) ++
        " already exists. Use --overwrite to replace it."]) ∨
    ((ow = true ∨ lookupFile w.files (pathJoin d (st ++ "." ++ f.value)) = none) ∧
      ∃ c, mc = some c ∧
        w2.files = setFile w.files (pathJoin d (st ++ "." ++ f.value)) c ∧
        w2.stdout = w.stdout ++ ["Saved " ++ f.value ++ " content to " ++
          pathJoin d (st ++ "." ++ f.value)]) := by
  unfold write_to_file at h
  by_cases hskip :
      (!ow && (lookupFile w.files (pathJoin d (st ++ "." ++ f.value))).isSome) = true
  · rw [if_pos hskip] at h
    injection h with h
    subst h
    obtain ⟨how, hsome⟩ := Bool.and_eq_true_iff.mp hskip
    exact Or.inl ⟨bool_not_true how, hsome, rfl, rfl⟩
  · rw [if_neg hskip] at h
    cases hmc : mc with
    | none => rw [hmc] at h; exact Except.noConfusion h
    | some c =>
      rw [hmc] at h
      injection h with h
      subst h
      refine Or.inr ⟨?_, c, rfl, rfl, rfl⟩
      cases how : ow with
      | true => exact Or.inl rfl
      | false =>
        refine Or.inr ?_
        cases hlk : lookupFile w.files (pathJoin d (st ++ "." ++ f.value)) with
        | none => rfl
        | some c2 =>
          exfalso
          apply hskip
          rw [how, hlk]
          rfl

/-- Lines already printed stay printed through the rest of the loop. -/
theorem outputLoop_stdout_mono (outputs : ArtifactMap) (ow : Bool) (d st : String) :
    ∀ (L : List OutputFormat) (w w' : World),
      outputLoop outputs ow (some (d, st)) L w = .ok w' → ∀ s ∈ w.stdout, s ∈ w'.stdout := by
  intro L
  induction L with
  | nil =>
    intro w w' h s hs
    simp only [outputLoop] at h
    injection h with h
    rw [← h]
    exact hs
  | cons g rest ih =>
    intro w w' h s hs
    simp only [outputLoop] at h
    by_cases hg : should_output_file [g] = true
    · rw [if_pos hg] at h
      cases hw : write_to_file (outputs g) d st g ow w with
      | error e => rw [hw] at h; exact Except.noConfusion h
      | ok w2 =>
        rw [hw] at h
        apply ih w2 w' h
        rcases write_to_file_ok_elim hw with ⟨-, -, -, hstd⟩ | ⟨-, c, -, -, hstd⟩ <;>
          · rw [hstd]
            exact List.mem_append_left _ hs
    · rw [if_neg hg] at h
      exact ih _ w' h s (List.mem_append_left _ hs)

/-- The final file at a format's path: written content exactly when the
format occurs in the remaining list and the path was absent or overwrite is
on; otherwise whatever was there before. -/
theorem outputLoop_files_char (outputs : ArtifactMap) (ow : Bool) (d st : String)
    (fmt : OutputFormat) (hfb : stdoutInValue fmt = false) :
    ∀ (L : List OutputFormat) (w w' : World),
      outputLoop outputs ow (some (d, st)) L w = .ok w' →
      lookupFile w'.files (pathJoin d (st ++ "." ++ fmt.value)) =
        if fmt ∈ L ∧ (lookupFile w.files (pathJoin d (st ++ "." ++ fmt.value)) = none ∨
            ow = true)
        then outputs fmt
        else lookupFile w.files (pathJoin d (st ++ "." ++ fmt.value)) := by
  intro L
  induction L with
  | nil =>
    intro w w' h
    simp only [outputLoop] at h
    injection h with h
    subst h
    simp
  | cons g rest ih =>
    intro w w' h
    simp only [outputLoop] at h
    by_cases hg : should_output_file [g] = true
    · rw [if_pos hg] at h
      cases hw : write_to_file (outputs g) d st g ow w with
      | error e => rw [hw] at h; exact Except.noConfusion h
      | ok w2 =>
        rw [hw] at h
        have hrec := ih w2 w' h
        by_cases hgf : g = fmt
        · subst hgf
          rcases write_to_file_ok_elim hw with ⟨how, hsome, hfiles, -⟩ |
            ⟨hcond, c, hmc, hfiles, -⟩
          · have hlw : ¬ lookupFile w.files (pathJoin d (st ++ "." ++ g.value)) = none := by
              intro e
              rw [e] at hsome
              exact Bool.noConfusion hsome
            have hnc : ¬ (lookupFile w.files (pathJoin d (st ++ "." ++ g.value)) = none ∨
                ow = true) := by
              rintro (e | e)
              · exact hlw e
              · rw [e] at how
                exact Bool.noConfusion how
            rw [hrec, hfiles]
            rw [if_neg (fun hand => hnc hand.2), if_neg (fun hand => hnc hand.2)]
          · have h2 : lookupFile w2.files (pathJoin d (st ++ "." ++ g.value)) = some c := by
              rw [hfiles]
              exact lookupFile_setFile_self _ _ _
            have hcondg : lookupFile w.files (pathJoin d (st ++ "." ++ g.value)) = none ∨
                ow = true := by
              rcases hcond with e | e
              · exact Or.inr e
              · exact Or.inl e
            rw [if_pos ⟨List.mem_cons_self g rest, hcondg⟩]
            rw [hrec, h2]
            by_cases hmem : g ∈ rest
            · cases how : ow with
              | true => rw [if_pos ⟨hmem, Or.inr rfl⟩]
              | false =>
                have hnc2 : ¬ ((some c : Option String) = none ∨ false = true) := by
                  rintro (e | e)
                  · exact Option.noConfusion e
                  · exact Bool.noConfusion e
                rw [if_neg (fun hand => hnc2 hand.2), hmc]
            · rw [if_neg (fun hand => hmem hand.1), hmc]
        · have hpne := pathFor_ne d st (fun e => hgf e)
          have hmemiff : fmt ∈ g :: rest ↔ fmt ∈ rest := by
            constructor
            · intro hm
              rcases List.mem_cons.mp hm with e | e
              · exact absurd e.symm hgf
              · exact e
            · exact fun hm => List.mem_cons_of_mem g hm
          rcases write_to_file_ok_elim hw with ⟨-, -, hfiles, -⟩ | ⟨-, c, -, hfiles, -⟩
          · simp only [hfiles] at hrec
            rw [hrec]
            exact if_congr (and_congr_left' hmemiff.symm) rfl rfl
          · have hl2 : lookupFile w2.files (pathJoin d (st ++ "." ++ fmt.value)) =
                lookupFile w.files (pathJoin d (st ++ "." ++ fmt.value)) := by
              rw [hfiles]
              exact lookupFile_setFile_ne _ _ _ _ (fun e => hpne e.symm)
            simp only [hl2] at hrec
            rw [hrec]
            exact if_congr (and_congr_left' hmemiff.symm) rfl rfl
    · rw [if_neg hg] at h
      have hgf : g ≠ fmt := by
        intro e
        subst e
        rw [should_output_file_singleton, hfb] at hg
        exact hg rfl
      have hrec := ih _ w' h
      have hmemiff : fmt ∈ g :: rest ↔ fmt ∈ rest := by
        constructor
        · intro hm
          rcases List.mem_cons.mp hm with e | e
          · exact absurd e.symm hgf
          · exact e
        · exact fun hm => List.mem_cons_of_mem g hm
      rw [hrec]
      exact if_congr (and_congr_left' hmemiff.symm) rfl rfl

/-- The loop cannot fail when every file-bound format in the list has
content in the artifact map and the directory was computed. -/
theorem outputLoop_ok (outputs : ArtifactMap) (ow : Bool) (d st : String) :
    ∀ (L : List OutputFormat) (w : World),
      (∀ f ∈ L, stdoutInValue f = false → (outputs f).isSome = true) →
      ∃ w', outputLoop outputs ow (some (d, st)) L w = .ok w' := by
  intro L
  induction L with
  | nil => exact fun w _ => ⟨w, rfl⟩
  | cons g rest ih =>
    intro w h
    simp only [outputLoop]
    by_cases hg : should_output_file [g] = true
    · rw [if_pos hg]
      have hgstd : stdoutInValue g = false := by
        rw [should_output_file_singleton] at hg
        exact bool_not_true hg
      have hgsome := h g (List.mem_cons_self g rest) hgstd
      have hwok : ∃ w2, write_to_file (outputs g) d st g ow w = .ok w2 := by
        unfold write_to_file
        by_cases hskip :
            (!ow && (lookupFile w.files (pathJoin d (st ++ "." ++ g.value))).isSome) = true
        · rw [if_pos hskip]
          exact ⟨_, rfl⟩
        · rw [if_neg hskip]
          obtain ⟨c, hc⟩ := Option.isSome_iff_exists.mp hgsome
          rw [hc]
          exact ⟨_, rfl⟩
      obtain ⟨w2, hw⟩ := hwok
      rw [hw]
      exact ih w2 (fun f hf => h f (List.mem_cons_of_mem g hf))
    · rw [if_neg hg]
      exact ih _ (fun f hf => h f (List.mem_cons_of_mem g hf))

/-- A loop over standard-output formats only always succeeds and never
touches the file store. -/
theorem outputLoop_stdout_only (outputs : ArtifactMap) (ow : Bool)
    (ds : Option (String × String)) :
    ∀ (L : List OutputFormat) (w : World), (∀ f ∈ L, stdoutInValue f = true) →
      ∃ w', outputLoop outputs ow ds L w = .ok w' ∧ w'.files = w.files := by
  intro L
  induction L with
  | nil => exact fun w _ => ⟨w, rfl, rfl⟩
  | cons g rest ih =>
    intro w h
    simp only [outputLoop]
    have hg : should_output_file [g] = false := by
      rw [should_output_file_singleton, h g (List.mem_cons_self g rest)]
      rfl
    rw [if_neg (by rw [hg]; exact Bool.noConfusion)]
    obtain ⟨w', hok, hfiles⟩ := ih (w.echo ((outputs g).getD ""))
      (fun f hf => h f (List.mem_cons_of_mem g hf))
    exact ⟨w', hok, hfiles⟩

/-- When a file-bound format is requested, its file exists, and overwrite
is off, the loop prints the already-exists notice. -/
theorem outputLoop_skip_notice (outputs : ArtifactMap) (d st : String) (fmt : OutputFormat)
    (hfb : stdoutInValue fmt = false) :
    ∀ (L : List OutputFormat) (w w' : World) (c : String),
      outputLoop outputs false (some (d, st)) L w = .ok w' → fmt ∈ L →
      lookupFile w.files (pathJoin d (st ++ "." ++ fmt.value)) = some c →
      ("File " ++ pathJoin d (st ++ "." ++ fmt.value) ++
        " already exists. Use --overwrite to replace it.") ∈ w'.stdout := by
  intro L
  induction L with
  | nil => intro w w' c _ hmem; exact absurd hmem (List.not_mem_nil fmt)
  | cons g rest ih =>
    intro w w' c h hmem hlook
    simp only [outputLoop] at h
    by_cases hg : should_output_file [g] = true
    · rw [if_pos hg] at h
      cases hw : write_to_file (outputs g) d st g false w with
      | error e => rw [hw] at h; exact Except.noConfusion h
      | ok w2 =>
        rw [hw] at h
        by_cases hgf : g = fmt
        · subst hgf
          rcases write_to_file_ok_elim hw with ⟨-, -, -, hstd⟩ | ⟨hcond, c2, -, -, -⟩
          · apply outputLoop_stdout_mono outputs false d st rest w2 w' h
            rw [hstd]
            exact List.mem_append_right _ (List.mem_singleton_self _)
          · rcases hcond with e | e
            · exact Bool.noConfusion e
            · rw [hlook] at e
              exact Option.noConfusion e
        · have hmem2 : fmt ∈ rest := by
            rcases List.mem_cons.mp hmem with e | e
            · exact absurd e.symm hgf
            · exact e
          have hl2 : lookupFile w2.files (pathJoin d (st ++ "." ++ fmt.value)) = some c := by
            rcases write_to_file_ok_elim hw with ⟨-, -, hfiles, -⟩ | ⟨-, c2, -, hfiles, -⟩
            · rw [hfiles]
              exact hlook
            · rw [hfiles, lookupFile_setFile_ne _ _ _ _
                (fun e => pathFor_ne d st (fun e2 => hgf e2) e.symm)]
              exact hlook
          exact ih w2 w' c h hmem2 hl2
    · rw [if_neg hg] at h
      have hgf : g ≠ fmt := by
        intro e
        subst e
        rw [should_output_file_singleton, hfb] at hg
        exact hg rfl
      have hmem2 : fmt ∈ rest := by
        rcases List.mem_cons.mp hmem with e | e
        · exact absurd e.symm hgf
        · exact e
      exact ih _ w' c h hmem2 hlook

/-- C2: `output` succeeds whenever the artifact map covers the requested
formats, and then, for every file-bound format: its file holds the
artifact content exactly when the format was requested and the file was
absent or overwrite was on; a requested format whose file exists without
overwrite leaves the old content and prints the skip notice while the rest
of the formats are still processed; an unrequested format's path is never
touched. -/
theorem c2_file_written_iff (netlocOf : String → String) (title : String)
    (outputs : ArtifactMap) (url : String) (flags : OutputFlags) (w : World)
    (hkeys : ∀ f ∈ flags.output_formats, (outputs f).isSome = true) :
    ∃ w', output netlocOf title outputs url flags w = .ok w' ∧
      ∀ fmt : OutputFormat, should_output_file [fmt] = true →
        (fmt ∈ flags.output_formats →
          ((lookupFile w.files (outputPathFor netlocOf url title flags fmt) = none ∨
              flags.overwrite = true) →
            lookupFile w'.files (outputPathFor netlocOf url title flags fmt) = outputs fmt) ∧
          (∀ c, lookupFile w.files (outputPathFor netlocOf url title flags fmt) = some c →
            flags.overwrite = false →
            lookupFile w'.files (outputPathFor netlocOf url title flags fmt) = some c ∧
            ("File " ++ outputPathFor netlocOf url title flags fmt ++
              " already exists. Use --overwrite to replace it.") ∈ w'.stdout)) ∧
        (fmt ∉ flags.output_formats →
          lookupFile w'.files (outputPathFor netlocOf url title flags fmt) =
            lookupFile w.files (outputPathFor netlocOf url title flags fmt)) := by
  by_cases hd :
      should_output_file (allOutputFormats.filter (fun f => (outputs f).isSome)) = true
  · have hfileOk : ∀ f ∈ flags.output_formats, stdoutInValue f = false →
        (outputs f).isSome = true := fun f hf _ => hkeys f hf
    set d := (if flags.create_domain_subdir then domainOf netlocOf url else ".") with hdd
    have hw1files :
        (if flags.create_domain_subdir then create_output_dir netlocOf url w
          else (".", w)).2.files = w.files := by
      by_cases hc : flags.create_domain_subdir = true
      · rw [if_pos hc]
        rfl
      · rw [if_neg hc]
    have hw1dir :
        (if flags.create_domain_subdir then create_output_dir netlocOf url w
          else (".", w)).1 = d := by
      by_cases hc : flags.create_domain_subdir = true
      · rw [hdd, if_pos hc, if_pos hc]
        rfl
      · rw [hdd, if_neg hc, if_neg hc]
    obtain ⟨w', hok⟩ := outputLoop_ok outputs flags.overwrite d (sanitize_filename title)
      flags.output_formats
      (if flags.create_domain_subdir then create_output_dir netlocOf url w else (".", w)).2
      hfileOk
    refine ⟨w', ?_, ?_⟩
    · simp only [output, if_pos hd]
      rw [hw1dir]
      exact hok
    · intro fmt hfmt
      have hfb : stdoutInValue fmt = false := by
        rw [should_output_file_singleton] at hfmt
        exact bool_not_true hfmt
      have hpath : outputPathFor netlocOf url title flags fmt =
          pathJoin d (sanitize_filename title ++ "." ++ fmt.value) := by
        rw [outputPathFor, hdd]
      have hchar := outputLoop_files_char outputs flags.overwrite d (sanitize_filename title)
        fmt hfb flags.output_formats _ w' hok
      rw [hw1files] at hchar
      refine ⟨fun hmem => ⟨fun hcond => ?_, fun c hc how => ⟨?_, ?_⟩⟩, fun hnmem => ?_⟩
      · rw [hpath, hchar, if_pos ⟨hmem, hcond⟩]
      · rw [hpath, hchar, if_neg ?_]
        · rw [← hpath]
          exact hc
        · rintro ⟨-, hor⟩
          rcases hor with e | e
          · rw [hpath] at hc
            rw [hc] at e
            exact Option.noConfusion e
          · rw [how] at e
            exact Bool.noConfusion e
      · have hskipn := outputLoop_skip_notice outputs d (sanitize_filename title) fmt hfb
          flags.output_formats _ w' c (how ▸ hok) hmem (by
            rw [hw1files, ← hpath]
            exact hc)
        rw [hpath]
        exact hskipn
      · rw [hpath, hchar, if_neg (by rintro ⟨hm, -⟩; exact hnmem hm)]
  · have hstdonly : ∀ f ∈ flags.output_formats, stdoutInValue f = true := by
      intro f hf
      by_contra hnf
      apply hd
      rw [should_output_file]
      apply List.any_eq_true.mpr
      refine ⟨f, List.mem_filter.mpr ⟨mem_allOutputFormats f, hkeys f hf⟩, ?_⟩
      rw [Bool.not_eq_true] at hnf
      rw [hnf]
      rfl
    obtain ⟨w', hok, hfiles⟩ := outputLoop_stdout_only outputs flags.overwrite none
      flags.output_formats w hstdonly
    refine ⟨w', ?_, ?_⟩
    · simp only [output, if_neg hd]
      exact hok
    · intro fmt hfmt
      have hnm : fmt ∉ flags.output_formats := by
        intro hmem
        rw [should_output_file_singleton, hstdonly fmt hmem] at hfmt
        exact Bool.noConfusion hfmt
      refine ⟨fun hmem => absurd hmem hnm, fun _ => ?_⟩
      rw [hfiles]

/-- Witness for C2: one requested markdown file on an empty filesystem is
written with the artifact's content. -/
theorem c2_file_written_iff_witness :
    ∃ w', output (fun _ => "example.com") "T"
      (fun f => if f = OutputFormat.MD then some "body" else none)
      "u" ⟨[OutputFormat.MD], false, false⟩ ⟨[], [], []⟩ = .ok w' ∧
      lookupFile w'.files "T.md" = some "body" := by
  obtain ⟨w', hok, hall⟩ := c2_file_written_iff (fun _ => "example.com") "T"
    (fun f => if f = OutputFormat.MD then some "body" else none)
    "u" ⟨[OutputFormat.MD], false, false⟩ ⟨[], [], []⟩ (by decide)
  refine ⟨w', hok, ?_⟩
  exact (((hall .MD (by decide)).1 (by decide)).1 (Or.inl rfl))

/-- A successful object lookup returns a strictly smaller value. -/
theorem jlookup_jsize_lt {fs : List (String × JValue)} {key : String} {v : JValue}
    (h : jlookup fs key = some v) : jsize v < jsizeFields fs := by
  induction fs with
  | nil => exact Option.noConfusion h
  | cons kv fs ih =>
    obtain ⟨k, w⟩ := kv
    rw [jlookup] at h
    by_cases hk : k = key
    · rw [if_pos hk] at h
      injection h with h
      subst h
      simp only [jsizeFields]
      omega
    · rw [if_neg hk] at h
      have := ih h
      simp only [jsizeFields]
      omega

/-- The depth of an encoded comment tree is bounded by the size of its
encoding (strictly, for lists), so the size-based fuel of
`parse_comments` always suffices. -/
theorem enc_cdepth_bound (n : Nat) :
    (∀ j c, jsize j ≤ n → EncComment j c → cdepth c ≤ jsize j) ∧
    (∀ js cs, jsizeList js ≤ n → EncList js cs → cdepthList cs < jsizeList js) := by
  induction n using Nat.strong_induction_on with
  | _ n ih =>
    constructor
    · intro j c hsize henc
      cases henc with
      | mk fs ds a s b rs hdata hauthor hscore hbody hrep =>
        have hds : jsize (JValue.obj ds) < jsizeFields fs := jlookup_jsize_lt hdata
        simp only [jsize] at hds hsize ⊢
        generalize hrepl : jlookup ds "replies" = rv at hrep
        cases hrep with
        | absent =>
          simp only [cdepth, cdepthList]
          omega
        | nonObj v hv =>
          simp only [cdepth, cdepthList]
          omega
        | listing rfs ws js2 cs2 hrd hch hencl =>
          have h1 : jsize (JValue.obj rfs) < jsizeFields ds := jlookup_jsize_lt hrepl
          have h2 : jsize (JValue.obj ws) < jsizeFields rfs := jlookup_jsize_lt hrd
          have h3 : jsize (JValue.arr js2) < jsizeFields ws := jlookup_jsize_lt hch
          simp only [jsize] at h1 h2 h3
          have hlt : jsizeList js2 < n := by omega
          have hrec := (ih (jsizeList js2) hlt).2 js2 rs le_rfl hencl
          simp only [cdepth]
          omega
    · intro js cs hsize hencl
      cases hencl with
      | nil =>
        simp [jsizeList, cdepthList]
      | cons j c js2 cs2 hc hl =>
        simp only [jsizeList] at hsize ⊢
        have hj : jsize j < n := by omega
        have h1 := (ih (jsize j) hj).1 j c le_rfl hc
        have hjs : jsizeList js2 < n := by omega
        have h2 := (ih (jsizeList js2) hjs).2 js2 cs2 le_rfl hl
        simp only [cdepthList]
        exact Nat.max_lt.mpr ⟨by omega, by omega⟩

/-- The sort-key extraction on an encoded comment yields its score (0 when
absent). -/
theorem pyKeyOf_enc {j : JValue} {c : RComment} (h : EncComment j c) :
    pyKeyOf j = .ok (.num (scoreKey c)) := by
  cases h with
  | mk fs ds a s b rs hdata hauthor hscore hbody hrep =>
    unfold pyKeyOf
    simp only [pySubscript, hdata]
    simp only [pyGet, hscore]
    cases s <;> rfl

/-- The decorate pass succeeds on an encoded sibling list and pairs each
element with its score key. -/
theorem decorate_enc : ∀ {js : List JValue} {cs : List RComment}, EncList js cs →
    ∃ pairs, decorate js = .ok pairs ∧ List.Forall₂ EncPair pairs cs := by
  intro js
  induction js with
  | nil =>
    intro cs h
    cases h
    exact ⟨[], rfl, List.Forall₂.nil⟩
  | cons j js ih =>
    intro cs h
    cases h with
    | cons _ c _ cs2 hc hl =>
      obtain ⟨pairs, hdec, hf⟩ := ih hl
      refine ⟨(j, .num (scoreKey c)) :: pairs, ?_, List.Forall₂.cons ⟨hc, rfl⟩ hf⟩
      simp only [decorate, pyKeyOf_enc hc, hdec]

/-- Monadic insertion on decorated pairs succeeds with integer keys and
mirrors `List.orderedInsert` under the descending-stable relation. -/
theorem orderedInsertM_enc {p : JValue × JValue} {c : RComment} (hp : EncPair p c) :
    ∀ {qs : List (JValue × JValue)} {cs : List RComment}, List.Forall₂ EncPair qs cs →
      ∃ res, orderedInsertM p qs = .ok res ∧
        List.Forall₂ EncPair res
          (List.orderedInsert (fun a b => scoreKey b ≤ scoreKey a) c cs) := by
  intro qs cs hf
  induction hf with
  | nil =>
    exact ⟨[p], rfl, List.Forall₂.cons hp List.Forall₂.nil⟩
  | @cons q c' qs' cs' hq hrest ih =>
    obtain ⟨res, hres, hfres⟩ := ih
    unfold orderedInsertM
    rw [hp.2, hq.2]
    simp only [pyLt]
    cases hd : decide (scoreKey c < scoreKey c') with
    | false =>
      have hle : scoreKey c' ≤ scoreKey c := Int.not_lt.mp (of_decide_eq_false hd)
      refine ⟨p :: q :: qs', rfl, ?_⟩
      rw [List.orderedInsert, if_pos hle]
      exact List.Forall₂.cons hp (List.Forall₂.cons hq hrest)
    | true =>
      rw [hres]
      have hlt : scoreKey c < scoreKey c' := of_decide_eq_true hd
      refine ⟨q :: res, rfl, ?_⟩
      rw [List.orderedInsert, if_neg (Int.not_le.mpr hlt)]
      exact List.Forall₂.cons hq hfres

/-- The monadic sort succeeds on decorated pairs with integer keys and
mirrors `List.insertionSort`. -/
theorem sortPairsM_enc : ∀ {qs : List (JValue × JValue)} {cs : List RComment},
    List.Forall₂ EncPair qs cs →
    ∃ res, sortPairsM qs = .ok res ∧
      List.Forall₂ EncPair res
        (List.insertionSort (fun a b => scoreKey b ≤ scoreKey a) cs) := by
  intro qs cs hf
  induction hf with
  | nil => exact ⟨[], rfl, List.Forall₂.nil⟩
  | cons hq hrest ih =>
    obtain ⟨res, hres, hfres⟩ := ih
    obtain ⟨res2, hres2, hfres2⟩ := orderedInsertM_enc hq hfres
    refine ⟨res2, ?_, ?_⟩
    · simp only [sortPairsM, hres, hres2]
    · simpa [List.insertionSort] using hfres2

/-- The whole `sorted(...)` call succeeds on an encoded sibling list and
encodes the spec's stable descending sort. -/
theorem sortCommentsM_enc {js : List JValue} {cs : List RComment} (h : EncList js cs) :
    ∃ js', sortCommentsM js = .ok js' ∧ EncList js' (sortCommentsSpec cs) := by
  obtain ⟨pairs, hdec, hf⟩ := decorate_enc h
  obtain ⟨sorted, hsort, hfs⟩ := sortPairsM_enc hf
  refine ⟨sorted.map (fun p => p.1), ?_, ?_⟩
  · simp only [sortCommentsM, hdec, hsort]
  · rw [sortCommentsSpec]
    clear hdec hsort h hf
    generalize List.insertionSort (fun a b => scoreKey b ≤ scoreKey a) cs = scs at hfs ⊢
    induction hfs with
    | nil => exact .nil
    | cons hq hrest ih =>
      simp only [List.map]
      exact .cons _ _ _ _ hq.1 ih

/-- The spec renderer yields nothing on an empty sibling list whatever the
fuel. -/
theorem renderSpecAux_nil (f depth : Nat) : renderSpecAux f [] depth = "" := by
  cases f with
  | zero => rfl
  | succ f => rfl

/-- Every member of a sibling list is bounded by the list depth. -/
theorem cdepth_le_cdepthList {c : RComment} : ∀ {cs : List RComment}, c ∈ cs →
    cdepth c ≤ cdepthList cs := by
  intro cs
  induction cs with
  | nil => intro h; exact absurd h (List.not_mem_nil c)
  | cons c2 cs ih =>
    intro h
    rcases List.mem_cons.mp h with e | e
    · subst e
      simp only [cdepthList]
      exact Nat.le_max_left _ _
    · simp only [cdepthList]
      exact le_trans (ih e) (Nat.le_max_right _ _)

/-- One loop pass over encoded, already-sorted siblings renders exactly the
spec's pass, provided recursive calls agree (supplied by the fuel
induction below) and the fuels dominate every sibling's depth. -/
theorem renderLoop_refines (fJ fC : Nat)
    (hrecur : ∀ js2 cs2 d2, EncList js2 cs2 → cdepthList cs2 < fJ → cdepthList cs2 < fC →
      parseCommentsAux fJ js2 d2 = .ok (renderSpecAux fC cs2 d2)) :
    ∀ (js' : List JValue) (cs' : List RComment) (depth : Nat), EncList js' cs' →
      (∀ c ∈ cs', cdepth c ≤ fJ) → (∀ c ∈ cs', cdepth c ≤ fC) →
      renderLoop (parseCommentsAux fJ) js' depth =
        .ok (renderSpecLoop (renderSpecAux fC) cs' depth) := by
  intro js'
  induction js' with
  | nil =>
    intro cs' depth h _ _
    cases h
    rfl
  | cons j js ih =>
    intro cs' depth h hJ hC
    cases h with
    | cons _ c _ cs2 hc hl =>
      have hcd : cdepth c ≤ fJ := hJ c (List.mem_cons_self c cs2)
      have hcd2 : cdepth c ≤ fC := hC c (List.mem_cons_self c cs2)
      have hrest := ih cs2 depth hl
        (fun x hx => hJ x (List.mem_cons_of_mem c hx))
        (fun x hx => hC x (List.mem_cons_of_mem c hx))
      cases hc with
      | mk fs ds a s b rs hdata hauthor hscore hbody hrep =>
        have hauth : (Option.map JValue.str a).getD (.str "[deleted]") =
            .str (a.getD "[deleted]") := by cases a <;> rfl
        have hbod : (Option.map JValue.str b).getD (.str "") = .str (b.getD "") := by
          cases b <;> rfl
        have hsc : (Option.map JValue.num s).getD (.num 0) = .num (s.getD 0) := by
          cases s <;> rfl
        simp only [renderLoop, pySubscript, hdata, pyGet, hauthor, hscore, hbody, hauth,
          hbod, hsc, pyAsStrForReplace, pyStrOf]
        simp only [cdepth] at hcd hcd2
        generalize hrepl : jlookup ds "replies" = rv at hrep
        cases hrep with
        | absent =>
          rw [hrest]
          simp only [renderSpecLoop, renderSpecAux_nil, scoreKey]
          rfl
        | nonObj v hv =>
          simp only [Option.getD, hv]
          rw [hrest]
          simp only [renderSpecLoop, renderSpecAux_nil, scoreKey]
          rfl
        | listing rfs ws js2 cs3 hrd hch hencl =>
          have hsub : parseCommentsAux fJ js2 (depth + 1) =
              .ok (renderSpecAux fC rs (depth + 1)) :=
            hrecur js2 rs (depth + 1) hencl (by omega) (by omega)
          simp only [Option.getD, JValue.isObj, pySubscript, hrd, hch, pyIterate, hsub]
          rw [hrest]
          simp only [renderSpecLoop, scoreKey]
          rfl

/-- Refinement of the fuelled comment renderer: on an encoded tree, with
both budgets above the tree depth, the code's renderer produces exactly
the spec's rendering. -/
theorem parse_comments_refines_aux :
    ∀ (fJ fC : Nat) (js : List JValue) (cs : List RComment) (depth : Nat),
      EncList js cs → cdepthList cs < fJ → cdepthList cs < fC →
      parseCommentsAux fJ js depth = .ok (renderSpecAux fC cs depth) := by
  intro fJ
  induction fJ using Nat.strong_induction_on with
  | _ fJ ihJ =>
    intro fC js cs depth henc hbJ hbC
    cases fJ with
    | zero => exact absurd hbJ (by omega)
    | succ fJ2 =>
      cases fC with
      | zero => exact absurd hbC (by omega)
      | succ fC2 =>
        obtain ⟨js', hsort, henc'⟩ := sortCommentsM_enc henc
        simp only [parseCommentsAux, hsort, renderSpecAux]
        apply renderLoop_refines fJ2 fC2
          (fun js2 cs2 d2 he hb1 hb2 => ihJ fJ2 (Nat.lt_succ_self fJ2) fC2 js2 cs2 d2 he hb1 hb2)
          js' (sortCommentsSpec cs) depth henc'
        · intro c hcmem
          have : c ∈ cs := by
            rw [sortCommentsSpec] at hcmem
            exact (List.mem_insertionSort _).mp hcmem
          have := cdepth_le_cdepthList this
          omega
        · intro c hcmem
          have : c ∈ cs := by
            rw [sortCommentsSpec] at hcmem
            exact (List.mem_insertionSort _).mp hcmem
          have := cdepth_le_cdepthList this
          omega

/-- Inserting an element into any list keeps every equal-key class in
order: the skipped prefix consists of strictly greater keys only. -/
theorem filter_orderedInsert_key (k : Int) (c : RComment) :
    ∀ l : List RComment,
      (List.orderedInsert (fun a b => scoreKey b ≤ scoreKey a) c l).filter
          (fun x => decide (scoreKey x = k)) =
        if scoreKey c = k
        then c :: l.filter (fun x => decide (scoreKey x = k))
        else l.filter (fun x => decide (scoreKey x = k)) := by
  intro l
  induction l with
  | nil =>
    by_cases hk : scoreKey c = k <;>
      simp [List.orderedInsert, List.filter, hk]
  | cons y l ih =>
    rw [List.orderedInsert]
    by_cases hr : scoreKey y ≤ scoreKey c
    · rw [if_pos hr]
      by_cases hk : scoreKey c = k <;> simp [List.filter_cons, hk]
    · rw [if_neg hr]
      rw [List.filter_cons, List.filter_cons]
      by_cases hk : scoreKey c = k
      · have hy : ¬ scoreKey y = k := by
          intro e
          exact absurd (le_of_eq (e.trans hk.symm)) hr
        simp [ih, hk, hy]
      · by_cases hy : scoreKey y = k <;> simp [ih, hk, hy]

/-- Stability of the spec's sibling sort: for every key value, the
subsequence of comments with that score is unchanged. -/
theorem filter_sortCommentsSpec_key (k : Int) :
    ∀ cs : List RComment,
      (sortCommentsSpec cs).filter (fun c => decide (scoreKey c = k)) =
        cs.filter (fun c => decide (scoreKey c = k)) := by
  intro cs
  rw [sortCommentsSpec]
  induction cs with
  | nil => rfl
  | cons c cs ih =>
    rw [List.insertionSort, filter_orderedInsert_key, List.filter_cons]
    by_cases hk : scoreKey c = k <;> simp [hk, ih]

/-- C4: on every well-formed (encoded) comment tree `parse_comments`
computes exactly the spec's rendering — sibling lists stably sorted by
score descending (missing score 0), each comment emitting
`{indent}- **{author}** [{score} score]:` then `{indent}    {body}` and a
blank line with four spaces per level, bodies re-indented one level
deeper, author defaulting to `[deleted]`, children (present only under a
well-shaped `replies` listing, anything else meaning no children) rendered
immediately after their parent — and the spec-side sort is indeed
descending, a permutation of its input, and stable on every equal-score
class. -/
theorem c4_parse_comments_renders_spec :
    (∀ (js : List JValue) (cs : List RComment) (depth : Nat), EncList js cs →
      parse_comments js depth = .ok (renderCommentsSpec cs depth)) ∧
    (∀ cs : List RComment,
      (sortCommentsSpec cs).Sorted (fun a b => scoreKey b ≤ scoreKey a)) ∧
    (∀ cs : List RComment, List.Perm (sortCommentsSpec cs) cs) ∧
    (∀ (cs : List RComment) (k : Int),
      (sortCommentsSpec cs).filter (fun c => decide (scoreKey c = k)) =
        cs.filter (fun c => decide (scoreKey c = k))) := by
  refine ⟨?_, ?_, ?_, ?_⟩
  · intro js cs depth henc
    have hb := (enc_cdepth_bound (jsizeList js)).2 js cs le_rfl henc
    simp only [parse_comments, renderCommentsSpec]
    exact parse_comments_refines_aux (jsizeList js) (cdepthList cs + 1) js cs depth henc hb
      (Nat.lt_succ_self _)
  · intro cs
    haveI : IsTotal RComment (fun a b => scoreKey b ≤ scoreKey a) :=
      ⟨fun a b => le_total (scoreKey b) (scoreKey a)⟩
    haveI : IsTrans RComment (fun a b => scoreKey b ≤ scoreKey a) :=
      ⟨fun _ _ _ hab hbc => le_trans hbc hab⟩
    exact List.sorted_insertionSort _ cs
  · intro cs
    exact List.perm_insertionSort _ cs
  · intro cs k
    exact filter_sortCommentsSpec_key k cs

/-- Witness for C4: a concrete two-sibling tree (scores 1 and 5, one
nested reply, one tie-free sort) run through the refinement. -/
theorem c4_parse_comments_renders_spec_witness :
    parse_comments
      [JValue.obj [("data", JValue.obj [("author", JValue.str "b"), ("score", JValue.num 1),
        ("body", JValue.str "lo"), ("replies", JValue.str "")])],
       JValue.obj [("data", JValue.obj [("author", JValue.str "a"), ("score", JValue.num 5),
        ("body", JValue.str "x\ny"),
        ("replies", JValue.obj [("data", JValue.obj [("children", JValue.arr
          [JValue.obj [("data", JValue.obj [("body", JValue.str "child")])]])])])])]] 0 =
      .ok (renderCommentsSpec
        [⟨some "b", some 1, some "lo", []⟩,
         ⟨some "a", some 5, some "x\ny",
          [⟨none, none, some "child", []⟩]⟩] 0) := by
  apply c4_parse_comments_renders_spec.1
  refine EncList.cons _ _ _ _ ?_ (EncList.cons _ _ _ _ ?_ EncList.nil)
  · exact EncComment.mk _ _ (some "b") (some 1) (some "lo") [] rfl rfl rfl rfl
      (EncReplies.nonObj _ rfl)
  · refine EncComment.mk _ _ (some "a") (some 5) (some "x\ny") _ rfl rfl rfl rfl ?_
    refine EncReplies.listing _ _ _ _ rfl rfl ?_
    exact EncList.cons _ _ _ _
      (EncComment.mk _ _ none none (some "child") [] rfl rfl rfl rfl EncReplies.absent)
      EncList.nil

/-- C9: the converter renders `<em>`/`<i>` with underscore delimiters and
`<strong>`/`<b>` with doubled asterisks, by the same rule at every nesting
level; the spec's example fragment renders to a string containing
`**Bold Text**` and `_Italic Text_` and not containing `*Italic Text*`. -/
theorem c9_emphasis_underscore_delimiters :
    (∀ cs, convertInline (.i cs) = "_" ++ convertInlineList cs ++ "_" ∧
      convertInline (.em cs) = convertInline (.i cs) ∧
      convertInline (.strong cs) = "**" ++ convertInlineList cs ++ "**" ∧
      convertInline (.b cs) = convertInline (.strong cs)) ∧
    convertInlineList [.strong [.text "Bold Text"], .text " and ", .i [.text "Italic Text"]] =
      "**Bold Text** and _Italic Text_" ∧
    "**Bold Text**".data <:+: "**Bold Text** and _Italic Text_".data ∧
    "_Italic Text_".data <:+: "**Bold Text** and _Italic Text_".data ∧
    ¬ "*Italic Text*".data <:+: "**Bold Text** and _Italic Text_".data := by
  refine ⟨fun cs => ⟨rfl, rfl, rfl, rfl⟩, by rfl, by decide, by decide, by decide⟩

/-- C1 fails on the code: with `stdout.md` as the only requested format
(which `should_output_file` classifies as not file-bound), the generic
strategy still produces an artifact map holding the file-bound `md` key, so
`output` — which passes the artifact dict, not the requested formats, to
`should_output_file` — creates the domain directory on disk even though no
file is written and the markdown goes to stdout. -/
theorem c1_stdout_only_still_creates_domain_dir :
    should_output_file [OutputFormat.STDOUT_MD] = false ∧
    BaseGrabber.grab (fun _ => .ok "<html>x</html>")
      (fun _ _ => .ok ⟨some "<p>x</p>", some "T"⟩)
      (fun s => s) (fun s => s) (fun _ _ _ => "") "2026-10-12" "2026-10-12 00:00"
      "https://example.com/a" true "Untitled {date}" ⟨false, false, false⟩ [.STDOUT_MD] =
      .ok ("T", (ArtifactMap.empty.set .MD "<p>x</p>").set .STDOUT_MD "<p>x</p>") ∧
    output (fun _ => "www.example.com") "T"
      ((ArtifactMap.empty.set .MD "<p>x</p>").set .STDOUT_MD "<p>x</p>")
      "https://example.com/a" ⟨[.STDOUT_MD], true, false⟩ ⟨[], [], []⟩ =
      .ok ⟨[], ["example.com"], ["<p>x</p>"]⟩ := by
  exact ⟨rfl, rfl, rfl⟩

end Grabit
